import Mathlib

/-
Verification of the EchoEats conversational backend
(server/llm.py and server/order_tool.py) against its design specification.

The Python source is shallowly embedded: dictionaries with known keys become
structures, the per-session message dictionary becomes a function from session
ids to message lists, exceptions become `Except String`, and the external
collaborators (the LLM client and the JSON decoder) become function-typed
parameters, specified only at their boundary as the spec prescribes.
-/

namespace EchoEats

/-! ## Messages and conversation store (llm.py, SimpleMemory) -/

/-- A LangChain chat message: SystemMessage, HumanMessage or AIMessage. -/
inductive Msg where
  | system (content : String)
  | human (content : String)
  | ai (content : String)
deriving DecidableEq, Repr

/-- The inputs dictionary passed to SimpleMemory methods: optional
session_id and message keys. -/
structure MemInputs where
  session_id : Option String
  message : Option String

/-- The outputs dictionary passed to SimpleMemory.save_context: optional
reply key. -/
structure MemOutputs where
  reply : Option String

/-- The session map of SimpleMemory: each session id maps to its message
list; an unknown session id maps to the empty list, exactly as
dict.get(session_id, []) behaves. -/
def SimpleMemory := String → List Msg

/-- The memory of a freshly constructed service: no session has messages. -/
def empty_memory : SimpleMemory := fun _ => []

/-- SimpleMemory.load_memory_variables: returns the message list of the
session named by inputs (default "default"). -/
def load_memory_variables (mem : SimpleMemory) (inputs : MemInputs) : List Msg :=
  mem (inputs.session_id.getD "default")

/-- SimpleMemory.save_context: appends the user message (when the message
key is present) and then the AI reply (when the reply key is present) to
the session named by inputs (default "default"). -/
def save_context (mem : SimpleMemory) (inputs : MemInputs) (outputs : MemOutputs) :
    SimpleMemory :=
  let sid := inputs.session_id.getD "default"
  let msgs0 := mem sid
  let msgs1 := match inputs.message with
    | some m => msgs0 ++ [Msg.human m]
    | none => msgs0
  let msgs2 := match outputs.reply with
    | some r => msgs1 ++ [Msg.ai r]
    | none => msgs1
  fun s => if s = sid then msgs2 else mem s

/-- LLMService.get_chat_history: projects a session into role/content
pairs, keeping HumanMessage as "user" and AIMessage as "assistant" and
dropping everything else. -/
def get_chat_history (mem : SimpleMemory) (session_id : String) :
    List (String × String) :=
  (mem session_id).filterMap (fun m =>
    match m with
    | Msg.human c => some ("user", c)
    | Msg.ai c => some ("assistant", c)
    | Msg.system _ => none)

/-! ## Orders (order_tool.py, OrderItem / Order) -/

/-- order_tool.OrderItem. Item prices are Python floats; they are embedded
as rationals, which the claims under verification never inspect
numerically. -/
structure OrderItem where
  name : String
  quantity : Nat
  price : Rat
  category : String
deriving DecidableEq, Repr

/-- order_tool.Order as stored in the JSON database. -/
structure Order where
  id : String
  user_id : String
  date : String
  day_of_week : String
  items : List OrderItem
  total : Rat
  restaurant : String
deriving DecidableEq, Repr

/-! ## Calendar dates (datetime.strptime / strftime / timedelta) -/

/-- A parsed calendar date, as produced by datetime.strptime(s, "%Y-%m-%d")
(the time components are always midnight and are dropped). -/
structure PDate where
  year : Nat
  month : Nat
  day : Nat
deriving DecidableEq, Repr

/-- Gregorian leap-year test, as used by the datetime module. -/
def isLeap (y : Nat) : Bool :=
  (y % 4 = 0 && y % 100 ≠ 0) || y % 400 = 0

/-- Number of days in a month of a given year. -/
def daysInMonth (y m : Nat) : Nat :=
  if m = 2 then (if isLeap y then 29 else 28)
  else if m = 4 || m = 6 || m = 9 || m = 11 then 30
  else 31

/-- Parses a nonempty all-digit character list of at most `maxLen`
characters, the way a strptime numeric field directive consumes digits. -/
def parseNatField (maxLen : Nat) (cs : List Char) : Option Nat :=
  if cs ≠ [] && cs.length ≤ maxLen && cs.all Char.isDigit then
    some (cs.foldl (fun acc c => acc * 10 + (c.toNat - 48)) 0)
  else
    none

/-- Splits a character list at every hyphen (the field separator of the
%Y-%m-%d format). -/
def splitDash : List Char → List (List Char)
  | [] => [[]]
  | c :: rest =>
    if c = '-' then [] :: splitDash rest
    else
      match splitDash rest with
      | [] => [[c]]
      | p :: ps => (c :: p) :: ps

/-- Models datetime.strptime(s, "%Y-%m-%d"): the string must be a year of
up to four digits, a month and a day of up to two digits separated by
hyphens, with the month and day in calendar range; anything else raises
ValueError, embedded as an error value carrying the strptime message. -/
def parseDate (s : String) : Except String PDate :=
  match splitDash s.toList with
  | [y, m, d] =>
    match parseNatField 4 y, parseNatField 2 m, parseNatField 2 d with
    | some yv, some mv, some dv =>
      if 1 ≤ mv && mv ≤ 12 && 1 ≤ dv && dv ≤ daysInMonth yv mv then
        Except.ok ⟨yv, mv, dv⟩
      else
        Except.error ("time data " ++ s ++ " does not match format %Y-%m-%d")
    | _, _, _ => Except.error ("time data " ++ s ++ " does not match format %Y-%m-%d")
  | _ => Except.error ("time data " ++ s ++ " does not match format %Y-%m-%d")

/-- Chronological comparison of parsed dates (datetime order restricted to
dates): lexicographic on year, month, day. -/
def pdleb (a b : PDate) : Bool :=
  a.year < b.year ||
    (a.year = b.year && (a.month < b.month ||
      (a.month = b.month && a.day ≤ b.day)))

/-- The calendar day before a date (one step of a negative timedelta). -/
def prevDay (d : PDate) : PDate :=
  if d.day > 1 then ⟨d.year, d.month, d.day - 1⟩
  else if d.month > 1 then ⟨d.year, d.month - 1, daysInMonth d.year (d.month - 1)⟩
  else ⟨d.year - 1, 12, 31⟩

/-- The calendar day after a date (one step of a positive timedelta). -/
def nextDay (d : PDate) : PDate :=
  if d.day < daysInMonth d.year d.month then ⟨d.year, d.month, d.day + 1⟩
  else if d.month < 12 then ⟨d.year, d.month + 1, 1⟩
  else ⟨d.year + 1, 1, 1⟩

/-- date - timedelta(days=k). -/
def subDays (d : PDate) : Nat → PDate
  | 0 => d
  | k + 1 => subDays (prevDay d) k

/-- date + timedelta(days=k). -/
def addDays (d : PDate) : Nat → PDate
  | 0 => d
  | k + 1 => addDays (nextDay d) k

/-- Days in the years strictly before year y of the proleptic Gregorian
calendar (the calendar of the datetime module). -/
def daysBeforeYear (y : Nat) : Nat :=
  let n := y - 1
  n * 365 + n / 4 - n / 100 + n / 400

/-- Days in the months of year y strictly before month m. -/
def daysBeforeMonth (y m : Nat) : Nat :=
  (List.range (m - 1)).foldl (fun acc i => acc + daysInMonth y (i + 1)) 0

/-- datetime.toordinal: day 1 is 0001-01-01. -/
def toOrdinal (d : PDate) : Nat :=
  daysBeforeYear d.year + daysBeforeMonth d.year d.month + d.day

/-- datetime.weekday: Monday is 0 and Sunday is 6; 0001-01-01 is a Monday. -/
def weekday (d : PDate) : Nat :=
  (toOrdinal d - 1) % 7

/-- Zero-pads a number to two digits, as the strftime %m and %d directives do. -/
def pad2 (n : Nat) : String :=
  if n < 10 then "0" ++ toString n else toString n

/-- Zero-pads a number to four digits, as the strftime %Y directive does. -/
def pad4 (n : Nat) : String :=
  if n < 10 then "000" ++ toString n
  else if n < 100 then "00" ++ toString n
  else if n < 1000 then "0" ++ toString n
  else toString n

/-- strftime("%Y-%m-%d"). -/
def formatDate (d : PDate) : String :=
  pad4 d.year ++ "-" ++ pad2 d.month ++ "-" ++ pad2 d.day

/-! ## Substring tests (the Python `in` operator on strings) -/

/-- Whether the character list `needle` occurs at the start of `l`. -/
def beginsWith : List Char → List Char → Bool
  | [], _ => true
  | _ :: _, [] => false
  | a :: as, b :: bs => a = b && beginsWith as bs

/-- Whether the character list `needle` occurs anywhere in `l`. -/
def hasSub (needle : List Char) : List Char → Bool
  | [] => beginsWith needle []
  | c :: rest => beginsWith needle (c :: rest) || hasSub needle rest

/-- The Python expression `needle in haystack` on strings. -/
def strContains (haystack needle : String) : Bool :=
  hasSub needle.toList haystack.toList

/-- Lexicographic strict order on character lists by code point: the
comparison Python and Lean both use for string less-than. -/
def charListLt : List Char → List Char → Bool
  | [], [] => false
  | [], _ :: _ => true
  | _ :: _, [] => false
  | a :: as, b :: bs =>
    if a < b then true
    else if a = b then charListLt as bs
    else false

/-- The Python expression `a < b` on strings, evaluated on the character
lists. -/
def strLt (a b : String) : Bool :=
  charListLt a.toList b.toList

/-- The Python str.lower method (ASCII case folding, applied per
character). -/
def strToLower (s : String) : String :=
  ⟨s.toList.map Char.toLower⟩

/-! ## OrderDatabase (order_tool.py): pure filters over the order list -/

/-- OrderDatabase.get_orders_by_date: equality match on date and user id. -/
def get_orders_by_date (orders : List Order) (date user_id : String) : List Order :=
  orders.filter (fun o => o.date == date && o.user_id == user_id)

/-- OrderDatabase.get_orders_by_day_of_week: equality match on the
day_of_week label and user id. -/
def get_orders_by_day_of_week (orders : List Order) (day_of_week user_id : String) :
    List Order :=
  orders.filter (fun o => o.day_of_week == day_of_week && o.user_id == user_id)

/-- The loop body of OrderDatabase.get_orders_by_date_range once the two
bounds are parsed: each order of the user has its date parsed (a malformed
stored date raises, embedded as the error short-circuiting) and is kept
when it lies in the inclusive range. -/
def rangeFilter (start_dt end_dt : PDate) (user_id : String) :
    List Order → Except String (List Order)
  | [] => Except.ok []
  | o :: rest =>
    if o.user_id = user_id then
      match parseDate o.date with
      | Except.error e => Except.error e
      | Except.ok od =>
        match rangeFilter start_dt end_dt user_id rest with
        | Except.error e => Except.error e
        | Except.ok tail =>
          Except.ok (if pdleb start_dt od && pdleb od end_dt then o :: tail else tail)
    else rangeFilter start_dt end_dt user_id rest

/-- OrderDatabase.get_orders_by_date_range: parses both bounds with
strptime (a malformed bound raises, embedded as an error value) and keeps
the orders of the user whose parsed date lies in the inclusive range. -/
def get_orders_by_date_range (orders : List Order) (start_date end_date user_id : String) :
    Except String (List Order) :=
  match parseDate start_date with
  | Except.error e => Except.error e
  | Except.ok start_dt =>
    match parseDate end_date with
    | Except.error e => Except.error e
    | Except.ok end_dt => rangeFilter start_dt end_dt user_id orders

/-- The result of the Python idiom sort-by-date-descending-then-take-first
(and of max(orders, key=date)): the list sort is stable and max keeps the
first maximum, so both return the leftmost order with the maximal date
string, computed here by a left fold that replaces only on a strictly
later date. -/
def latestByDate (o : Order) (rest : List Order) : Order :=
  rest.foldl (fun m x => if strLt m.date x.date then x else m) o

/-- OrderDatabase.get_latest_order: None when the user has no orders, else
the first order of the stable date-descending sort of the user orders. -/
def get_latest_order (orders : List Order) (user_id : String) : Option Order :=
  match orders.filter (fun o => o.user_id == user_id) with
  | [] => none
  | o :: rest => some (latestByDate o rest)

/-- OrderDatabase.get_orders_by_item_name: keeps the orders of the user in
which some item name contains the query item name, case-insensitively. -/
def get_orders_by_item_name (orders : List Order) (item_name user_id : String) :
    List Order :=
  orders.filter (fun o =>
    o.user_id == user_id &&
      o.items.any (fun it => strContains (strToLower it.name) (strToLower item_name)))

/-! ## Result formatting (shared verbatim by OrderSearchTool and
IntelligentOrderSearch, which carry identical private copies) -/

/-- Models the Python format specifier .2f applied to an order total:
rounds to cents and prints with exactly two decimals (the binary-float
rounding artifacts of Python floats are not modelled; no claim under
verification inspects this text numerically). -/
def formatMoney (t : Rat) : String :=
  let c : Int := round (t * 100)
  let n := c.natAbs
  (if c < 0 then "-" else "") ++ toString (n / 100) ++ "." ++
    (if n % 100 < 10 then "0" else "") ++ toString (n % 100)

/-- _format_order_response: a single order as a display string. -/
def format_order_response (o : Order) : String :=
  let items_text := String.intercalate ", "
    (o.items.map (fun it => toString it.quantity ++ "x " ++ it.name))
  "On " ++ o.date ++ " (" ++ o.day_of_week ++ "), you ordered: " ++
    items_text ++ ". Total: $" ++ formatMoney o.total

/-- One bullet line of _format_multiple_orders_response. -/
def format_order_line (o : Order) : String :=
  let items_text := String.intercalate ", "
    (o.items.map (fun it => toString it.quantity ++ "x " ++ it.name))
  "• " ++ o.date ++ " (" ++ o.day_of_week ++ "): " ++ items_text ++
    " - $" ++ formatMoney o.total ++ "\n"

/-- _format_multiple_orders_response: a singleton list formats as a single
order; otherwise a count line followed by the last three entries of the
list, with the trailing whitespace stripped. -/
def format_multiple_orders_response (orders : List Order) : String :=
  match orders with
  | [o] => format_order_response o
  | _ =>
    let body := String.join ((orders.drop (orders.length - 3)).map format_order_line)
    ("Found " ++ toString orders.length ++ " orders:\n" ++ body).trim

/-! ## OrderSearchTool: the deterministic keyword strategy -/

/-- The result dictionary of OrderSearchTool searches: found flag, human
message, raw order list and, when present, the formatted display string. -/
structure SearchResult where
  found : Bool
  message : String
  orders : List Order
  formatted_response : Option String
deriving DecidableEq, Repr

/-- OrderSearchTool._search_by_day: the single most recent order whose
day_of_week matches, or found=false with an empty list. -/
def search_by_day (db : List Order) (day user_id : String) : SearchResult :=
  match get_orders_by_day_of_week db day user_id with
  | [] =>
    { found := false
      message := "No orders found for " ++ day
      orders := []
      formatted_response := none }
  | o :: rest =>
    let latest_order := latestByDate o rest
    { found := true
      message := "Found your " ++ day ++ " order from " ++ latest_order.date
      orders := [latest_order]
      formatted_response := some (format_order_response latest_order) }

/-- OrderSearchTool._search_latest: the single most recent order of the
user, or found=false with message "No orders found". -/
def search_latest (db : List Order) (user_id : String) : SearchResult :=
  match get_latest_order db user_id with
  | none =>
    { found := false
      message := "No orders found"
      orders := []
      formatted_response := none }
  | some latest_order =>
    { found := true
      message := "Found your latest order from " ++ latest_order.date
      orders := [latest_order]
      formatted_response := some (format_order_response latest_order) }

/-- OrderSearchTool._search_last_week: the previous Monday-to-Sunday week
relative to the current date; the date-range lookup may raise on a
malformed stored date, which propagates. -/
def search_last_week (db : List Order) (now : PDate) (user_id : String) :
    Except String SearchResult :=
  let last_week_start := subDays now (weekday now + 7)
  let last_week_end := addDays last_week_start 6
  match get_orders_by_date_range db (formatDate last_week_start)
      (formatDate last_week_end) user_id with
  | Except.error e => Except.error e
  | Except.ok orders =>
    if orders.isEmpty then
      Except.ok
        { found := false
          message := "No orders found from last week"
          orders := []
          formatted_response := none }
    else
      Except.ok
        { found := true
          message := "Found " ++ toString orders.length ++ " orders from last week"
          orders := orders
          formatted_response := some (format_multiple_orders_response orders) }

/-- The fixed food vocabulary of _search_by_food_item. -/
def food_keywords : List String :=
  ["pizza", "burger", "pasta", "salad", "wings", "fish", "chicken", "nachos"]

/-- The keyword loop of _search_by_food_item: the first keyword that both
occurs in the query and matches at least one order wins; keywords whose
lookup is empty are skipped. -/
def search_by_food_item_go (db : List Order) (query user_id : String) :
    List String → SearchResult
  | [] =>
    { found := false
      message := "No orders found for that food item"
      orders := []
      formatted_response := none }
  | keyword :: rest =>
    if strContains query keyword then
      match get_orders_by_item_name db keyword user_id with
      | [] => search_by_food_item_go db query user_id rest
      | o :: os =>
        { found := true
          message := "Found " ++ toString (o :: os).length ++
            " orders containing " ++ keyword
          orders := o :: os
          formatted_response := some (format_multiple_orders_response (o :: os)) }
    else search_by_food_item_go db query user_id rest

/-- OrderSearchTool._search_by_food_item. -/
def search_by_food_item (db : List Order) (query user_id : String) : SearchResult :=
  search_by_food_item_go db query user_id food_keywords

/-- OrderSearchTool._search_general: falls back to the latest order. -/
def search_general (db : List Order) (_query user_id : String) : SearchResult :=
  search_latest db user_id

/-- The food guard of the classifier in search_orders (a shorter list than
the vocabulary _search_by_food_item then scans). -/
def classifier_foods : List String :=
  ["pizza", "burger", "pasta", "salad", "wings", "fish"]

/-- OrderSearchTool.search_orders: classifies the lowercased free-text
query by literal substring tests in a fixed priority and dispatches to the
matching lookup; only the last-week branch can raise (on malformed stored
dates), which propagates to the caller. -/
def search_orders (db : List Order) (now : PDate) (query user_id : String) :
    Except String SearchResult :=
  let query_lower := strToLower query
  if strContains query_lower "last friday" || strContains query_lower "friday" then
    Except.ok (search_by_day db "Friday" user_id)
  else if strContains query_lower "last monday" || strContains query_lower "monday" then
    Except.ok (search_by_day db "Monday" user_id)
  else if strContains query_lower "last week" || strContains query_lower "week" then
    search_last_week db now user_id
  else if strContains query_lower "latest" || strContains query_lower "most recent" then
    Except.ok (search_latest db user_id)
  else if classifier_foods.any (fun food => strContains query_lower food) then
    Except.ok (search_by_food_item db query_lower user_id)
  else
    Except.ok (search_general db query_lower user_id)

/-! ## IntelligentOrderSearch: the LLM-assisted strategy -/

/-- The structured query parameters decoded from the JSON object the
query-generation LLM returns; every key is optional. The limit is a JSON
integer. -/
structure QueryParams where
  user_id : Option String
  date : Option String
  day_of_week : Option String
  food_item : Option String
  time_period : Option String
  limit : Option Int
deriving DecidableEq, Repr

/-- The fixed instruction prompt of generate_search_query, with the user
id and the user query interpolated as in the source f-string. -/
def search_prompt (user_query user_id : String) : String :=
  "\nYou are a query generator for a food order database. Convert the " ++
  "user\x27s natural language query into a structured search query.\n\n" ++
  "Available search parameters:\n- user_id: \"" ++ user_id ++
  "\" (always include this)\n- date: specific date in YYYY-MM-DD format\n" ++
  "- day_of_week: \"Monday\", \"Tuesday\", \"Wednesday\", \"Thursday\", " ++
  "\"Friday\", \"Saturday\", \"Sunday\"\n" ++
  "- food_item: name of food item (e.g., \"pizza\", \"burger\", \"wings\")\n" ++
  "- time_period: \"latest\", \"last_week\", \"last_month\"\n" ++
  "- limit: number of results to return (default: 1)\n\nUser query: \"" ++
  user_query ++ "\"\n\nRespond with ONLY a JSON object containing the " ++
  "search parameters. Examples:\n\nFor \"last Friday\": \x7b\"user_id\": \"" ++
  user_id ++ "\", \"day_of_week\": \"Friday\", \"limit\": 1\x7d\n" ++
  "For \"latest order\": \x7b\"user_id\": \"" ++ user_id ++
  "\", \"time_period\": \"latest\", \"limit\": 1\x7d\n" ++
  "For \"pizza orders\": \x7b\"user_id\": \"" ++ user_id ++
  "\", \"food_item\": \"pizza\", \"limit\": 5\x7d\n" ++
  "For \"orders from last week\": \x7b\"user_id\": \"" ++ user_id ++
  "\", \"time_period\": \"last_week\", \"limit\": 10\x7d\n\nJSON response:"

/-- IntelligentOrderSearch.generate_search_query. The LLM client and the
JSON decoder are the two external collaborators of this method, given as
function parameters: query_llm is None or an invoke function that returns
the response content or a failure, and json_loads decodes a string into
query parameters or fails with a decode message. A missing LLM raises at
once; an invoke or decode failure is caught and re-raised wrapped in the
message of the source. -/
def generate_search_query (query_llm : Option (String → Except String String))
    (json_loads : String → Except String QueryParams)
    (user_query user_id : String) : Except String QueryParams :=
  match query_llm with
  | none => Except.error "Query LLM not initialized. Cannot generate search query."
  | some invoke =>
    match invoke (search_prompt user_query user_id) with
    | Except.error e => Except.error ("Failed to generate search query: " ++ e)
    | Except.ok content =>
      match json_loads content.trim with
      | Except.error e => Except.error ("Failed to generate search query: " ++ e)
      | Except.ok query_params => Except.ok query_params

/-- The deduplicate-and-truncate loop at the end of execute_search: seen
ids are skipped; after each kept order the loop stops as soon as the kept
count reaches the limit. The count check happens after the append, so a
non-positive limit still lets one order through. -/
def dedupLimitGo (limit : Int) (seen : List String) (count : Nat) :
    List Order → List Order
  | [] => []
  | o :: rest =>
    if o.id ∈ seen then dedupLimitGo limit seen count rest
    else if (count + 1 : Int) ≥ limit then [o]
    else o :: dedupLimitGo limit (o.id :: seen) (count + 1) rest

/-- Deduplication by order id followed by truncation to the limit. -/
def dedupLimit (results : List Order) (limit : Int) : List Order :=
  dedupLimitGo limit [] 0 results

/-- The latest-order contribution used by the time_period branch and the
default branch of execute_search: one order when the user has any, else
nothing. -/
def latest_results (db : List Order) (user_id : String) : List Order :=
  match get_latest_order db user_id with
  | some o => [o]
  | none => []

/-- The time_period branch of execute_search: "latest" takes the latest
order, "last_week" the previous Monday-start week (the date-range lookup
may raise), and any other tag contributes nothing. -/
def time_period_results (db : List Order) (now : PDate) (tp user_id : String) :
    Except String (List Order) :=
  if tp = "latest" then Except.ok (latest_results db user_id)
  else if tp = "last_week" then
    let last_week_start := subDays now (weekday now + 7)
    let last_week_end := addDays last_week_start 6
    get_orders_by_date_range db (formatDate last_week_start)
      (formatDate last_week_end) user_id
  else Except.ok []

/-- The if/elif chain of execute_search that picks the single filter
dimension: day_of_week, else food_item, else time_period, else date, else
the latest order. -/
def select_results (db : List Order) (now : PDate) (qp : QueryParams)
    (user_id : String) : Except String (List Order) :=
  match qp.day_of_week with
  | some d => Except.ok (get_orders_by_day_of_week db d user_id)
  | none =>
    match qp.food_item with
    | some f => Except.ok (get_orders_by_item_name db f user_id)
    | none =>
      match qp.time_period with
      | some tp => time_period_results db now tp user_id
      | none =>
        match qp.date with
        | some dt => Except.ok (get_orders_by_date db dt user_id)
        | none => Except.ok (latest_results db user_id)

/-- IntelligentOrderSearch.execute_search: applies the selected filter and
then deduplicates by order id and truncates to the limit (default 1). -/
def execute_search (db : List Order) (now : PDate) (qp : QueryParams) :
    Except String (List Order) :=
  let user_id := qp.user_id.getD "user_darshan"
  let limit := qp.limit.getD 1
  match select_results db now qp user_id with
  | Except.error e => Except.error e
  | Except.ok results => Except.ok (dedupLimit results limit)

/-- IntelligentOrderSearch.search_orders: query generation, execution and
formatting; failures of generation or execution propagate uncaught. -/
def intelligent_search_orders (db : List Order) (now : PDate)
    (query_llm : Option (String → Except String String))
    (json_loads : String → Except String QueryParams)
    (user_query user_id : String) : Except String String :=
  match generate_search_query query_llm json_loads user_query user_id with
  | Except.error e => Except.error e
  | Except.ok query_params =>
    match execute_search db now query_params with
    | Except.error e => Except.error e
    | Except.ok results =>
      match results with
      | [] => Except.ok "No orders found matching your criteria."
      | [o] => Except.ok (format_order_response o)
      | _ => Except.ok (format_multiple_orders_response results)

/-! ## LLMService.chat_once: the chat orchestrator -/

/-- A tool call requested by the model: a tool name and its argument
dictionary. -/
structure ToolCall where
  name : String
  args : List (String × String)
deriving DecidableEq, Repr

/-- The model response: reply content and the requested tool calls (the
empty list plays the role of a missing or falsy tool_calls attribute). -/
structure Response where
  content : String
  tool_calls : List ToolCall
deriving DecidableEq, Repr

/-- The value chat_once returns to the transport layer. -/
structure ChatResult where
  reply : String
  session_id : String
  message_count : Nat
deriving DecidableEq, Repr

/-- The ORDER_TOOLS registry as the orchestrator sees it: named callables
whose invocation returns a string or raises. -/
def Tools := List (String × (List (String × String) → Except String String))

/-- The fixed system instruction of chat_once. -/
def system_prompt : String :=
  "You are a helpful assistant for EchoEats restaurant. Be friendly and " ++
  "engaging in your responses. You have access to order search tools to " ++
  "help customers find their previous orders. Use these tools when " ++
  "customers ask about their order history."

/-- Session resolution in chat_once: a falsy session id (absent or the
empty string) is replaced by a freshly minted uuid4 string, supplied here
as the parameter fresh. -/
def resolve_session_id (session_id : Option String) (fresh : String) : String :=
  match session_id with
  | none => fresh
  | some s => if s = "" then fresh else s

/-- One iteration of the tool-call loop: the first registered tool with
the requested name is invoked; its failure is caught in place and turned
into inline error text; an unknown name contributes nothing. -/
def run_tool_call (tools : Tools) (tc : ToolCall) : Option String :=
  match tools.find? (fun t => t.1 == tc.name) with
  | none => none
  | some t =>
    match t.2 tc.args with
    | Except.ok result => some ("Tool " ++ tc.name ++ ": " ++ result)
    | Except.error e => some ("Tool " ++ tc.name ++ " error: " ++ e)

/-- The model-visible context chat_once assembles: the system instruction,
the stored session history, then the new user message. -/
def context_messages (mem : SimpleMemory) (sid message : String) : List Msg :=
  Msg.system system_prompt ::
    (load_memory_variables mem { session_id := some sid, message := none } ++
      [Msg.human message])

/-- The synthetic assistant turn summarizing all tool outputs. -/
def tool_results_message (tools : Tools) (tool_calls : List ToolCall) : Msg :=
  Msg.ai ("Tool results: " ++
    String.intercalate "; " (tool_calls.filterMap (run_tool_call tools)))

/-- The try block of chat_once: context assembly, the first model
invocation, at most one tool round-trip with a second invocation, then
persistence and the updated turn count. An invocation failure escapes the
block as an error value, to be caught by the surrounding handler. -/
def chat_body (invoke : List Msg → Except String Response) (tools : Tools)
    (mem : SimpleMemory) (sid message : String) :
    Except String (ChatResult × SimpleMemory) :=
  let messages := context_messages mem sid message
  match invoke messages with
  | Except.error e => Except.error e
  | Except.ok response =>
    let final : Except String String :=
      if response.tool_calls.isEmpty then Except.ok response.content
      else
        match invoke (messages ++ [tool_results_message tools response.tool_calls]) with
        | Except.error e => Except.error e
        | Except.ok final_response => Except.ok final_response.content
    match final with
    | Except.error e => Except.error e
    | Except.ok final_content =>
      let mem2 := save_context mem
        { session_id := some sid, message := some message }
        { reply := some final_content }
      let message_count :=
        (load_memory_variables mem2 { session_id := some sid, message := none }).length
      Except.ok
        ({ reply := final_content, session_id := sid, message_count := message_count },
          mem2)

/-- LLMService.chat_once. When no model is configured the echo fallback
returns at once; otherwise the session id is resolved and the try block
runs, any failure of which is caught and converted to the echo fallback
carrying the resolved session id and a zero count. The returned pair is
the response dictionary together with the memory after the call. -/
def chat_once (model_with_tools : Option (List Msg → Except String Response))
    (tools : Tools) (mem : SimpleMemory) (fresh message : String)
    (session_id : Option String) : ChatResult × SimpleMemory :=
  match model_with_tools with
  | none =>
    ({ reply := "echo: " ++ message
       session_id := resolve_session_id session_id fresh
       message_count := 0 }, mem)
  | some invoke =>
    let sid := resolve_session_id session_id fresh
    match chat_body invoke tools mem sid message with
    | Except.ok r => r
    | Except.error _ =>
      ({ reply := "echo: " ++ message, session_id := sid, message_count := 0 }, mem)

/-! ## Harness definitions for the verified properties -/

/-- The turn sequence that N (user, assistant) pairs are expected to
produce: user then assistant for each pair, in call order. -/
def pair_turns : List (String × String) → List Msg
  | [] => []
  | p :: rest => Msg.human p.1 :: Msg.ai p.2 :: pair_turns rest

/-- N successive calls to save_context for one session, each providing a
(user message, assistant reply) pair. -/
def save_pairs (mem : SimpleMemory) (sid : String) :
    List (String × String) → SimpleMemory
  | [] => mem
  | p :: rest =>
    save_pairs (save_context mem ⟨some sid, some p.1⟩ ⟨some p.2⟩) sid rest

/-- Checks that a message list alternates user/assistant turns; the flag
tells whether a user turn is expected next. -/
def alternates_from : Bool → List Msg → Bool
  | _, [] => true
  | true, Msg.human _ :: rest => alternates_from false rest
  | false, Msg.ai _ :: rest => alternates_from true rest
  | _, _ => false

/-- A sample order item for concrete evaluations. -/
def pizza_item : OrderItem :=
  { name := "Cheese Pizza", quantity := 2, price := 19 / 2, category := "food" }

/-- A sample Friday order of the demo user. -/
def friday_order : Order :=
  { id := "order_1", user_id := "user_darshan", date := "2024-06-07"
    day_of_week := "Friday", items := [pizza_item], total := 19
    restaurant := "EchoEats Pizzeria" }

/-- A sample Tuesday order of the demo user. -/
def tuesday_order : Order :=
  { id := "order_2", user_id := "user_darshan", date := "2024-06-04"
    day_of_week := "Tuesday", items := [pizza_item], total := 19
    restaurant := "EchoEats Pizzeria" }

/-- A sample Wednesday order of the demo user, dated after the Tuesday one. -/
def wednesday_order : Order :=
  { id := "order_3", user_id := "user_darshan", date := "2024-06-05"
    day_of_week := "Wednesday", items := [pizza_item], total := 19
    restaurant := "EchoEats Pizzeria" }

/-- A sample order dated 2024-01-02. -/
def jan2_order : Order :=
  { id := "order_4", user_id := "user_darshan", date := "2024-01-02"
    day_of_week := "Tuesday", items := [pizza_item], total := 19
    restaurant := "EchoEats Pizzeria" }

/-! ## Theorems -/

/-- C2: for every message and every session id (provided or absent), when
no LLM model is configured, chat_once returns exactly
reply = "echo: " + message and message_count = 0, and skips all remaining
processing steps, leaving the conversation store untouched. -/
theorem chat_once_no_model_echo (tools : Tools) (mem : SimpleMemory)
    (fresh message : String) (session_id : Option String) :
    (chat_once none tools mem fresh message session_id).1.reply
      = "echo: " ++ message ∧
    (chat_once none tools mem fresh message session_id).1.message_count = 0 ∧
    (chat_once none tools mem fresh message session_id).2 = mem :=
  ⟨rfl, rfl, rfl⟩

/-- C10: on the degraded echo path (no model configured) and on the
failure path (the try block of chat_once fails after the model is
configured), the conversation store is returned completely unchanged: no
turn is persisted for any session. -/
theorem chat_once_failure_preserves_memory (tools : Tools) (mem : SimpleMemory)
    (fresh message : String) (session_id : Option String) :
    (chat_once none tools mem fresh message session_id).2 = mem ∧
    (∀ (invoke : List Msg → Except String Response) (e : String),
      chat_body invoke tools mem (resolve_session_id session_id fresh) message
        = Except.error e →
      (chat_once (some invoke) tools mem fresh message session_id).2 = mem) := by
  refine ⟨rfl, fun invoke e h => ?_⟩
  simp only [chat_once, h]

/-- Witness for C10 at a concrete failing model invocation. -/
theorem chat_once_failure_preserves_memory_witness :
    (chat_once (some (fun _ => Except.error "boom")) [] empty_memory
      "fresh-id" "hi" none).2 = empty_memory :=
  (chat_once_failure_preserves_memory [] empty_memory "fresh-id" "hi" none).2
    (fun _ => Except.error "boom") "boom" rfl

/-- C9: messages saved under one session never appear in the history
returned for a different session, and the history of a session is
determined solely by the turns stored under that session. -/
theorem get_chat_history_session_isolation (mem : SimpleMemory) (a : String)
    (inputs : MemInputs) (outputs : MemOutputs)
    (hab : a ≠ inputs.session_id.getD "default") :
    get_chat_history (save_context mem inputs outputs) a
      = get_chat_history mem a ∧
    (∀ mem' : SimpleMemory, mem a = mem' a →
      get_chat_history mem a = get_chat_history mem' a) := by
  constructor
  · unfold get_chat_history save_context
    simp [hab]
  · intro mem' h
    unfold get_chat_history
    rw [h]

/-- Witness for C9: a concrete store where session b receives a turn and
the history of session a is unchanged. -/
theorem get_chat_history_session_isolation_witness :
    get_chat_history
      (save_context (fun s => if s = "a" then [Msg.human "m1", Msg.ai "r1"] else [])
        ⟨some "b", some "m2"⟩ ⟨some "r2"⟩) "a"
      = get_chat_history
          (fun s => if s = "a" then [Msg.human "m1", Msg.ai "r1"] else []) "a" :=
  (get_chat_history_session_isolation
    (fun s => if s = "a" then [Msg.human "m1", Msg.ai "r1"] else []) "a"
    ⟨some "b", some "m2"⟩ ⟨some "r2"⟩ (by decide)).1

/-- C1 counterexample: a failure during tool execution is not converted to
the echo result. The model requests the order-search tool, the tool raises,
and chat_once still answers with the second model completion and a count
of 2 instead of the echo record with count 0. -/
theorem chat_once_tool_failure_not_echo :
    (chat_once
      (some (fun msgs =>
        if msgs.length ≤ 2 then Except.ok ⟨"", [⟨"search_order_history", []⟩]⟩
        else Except.ok ⟨"final answer", []⟩))
      [("search_order_history", fun _ => Except.error "boom")]
      empty_memory "f" "hi" (some "s")).1
      = { reply := "final answer", session_id := "s", message_count := 2 } ∧
    "final answer" ≠ "echo: " ++ "hi" := by
  constructor
  · rfl
  · decide

/-- C1 amended: chat_once never raises; a failure of the try block
(context assembly, model invocation, persistence) is caught at the top
level and converted to the echo result with the already-resolved session
id and a zero count, while a failure of an individual tool invocation is
caught per tool call and reported inline, the final reply being the second
model completion rather than the echo fallback. -/
theorem chat_once_failure_echo_amended
    (invoke : List Msg → Except String Response) (tools : Tools)
    (mem : SimpleMemory) (fresh message : String) (session_id : Option String) :
    (∀ e : String,
      chat_body invoke tools mem (resolve_session_id session_id fresh) message
        = Except.error e →
      chat_once (some invoke) tools mem fresh message session_id =
        ({ reply := "echo: " ++ message
           session_id := resolve_session_id session_id fresh
           message_count := 0 }, mem)) ∧
    (∀ (response final_response : Response),
      invoke (context_messages mem (resolve_session_id session_id fresh) message)
        = Except.ok response →
      response.tool_calls ≠ [] →
      invoke (context_messages mem (resolve_session_id session_id fresh) message ++
          [tool_results_message tools response.tool_calls])
        = Except.ok final_response →
      (chat_once (some invoke) tools mem fresh message session_id).1.reply
        = final_response.content) := by
  constructor
  · intro e h
    simp only [chat_once, h]
  · intro response final_response h1 htc h2
    have hne : response.tool_calls.isEmpty = false := by
      cases hcalls : response.tool_calls with
      | nil => exact absurd hcalls htc
      | cons a l => rfl
    simp only [chat_once, chat_body, h1, hne, h2, Bool.false_eq_true, if_false]

/-- Witness for the amended C1 at a concrete always-failing invocation. -/
theorem chat_once_failure_echo_amended_witness :
    chat_once (some (fun _ => Except.error "down")) [] empty_memory "f" "hi" none =
      ({ reply := "echo: " ++ "hi", session_id := "f", message_count := 0 },
        empty_memory) :=
  (chat_once_failure_echo_amended (fun _ => Except.error "down") [] empty_memory
    "f" "hi" none).1 "down" rfl

/-- One save_context call with both keys present appends exactly the user
turn then the assistant turn to the named session. -/
theorem save_context_at_sid (mem : SimpleMemory) (sid u r : String) :
    save_context mem ⟨some sid, some u⟩ ⟨some r⟩ sid
      = mem sid ++ [Msg.human u, Msg.ai r] := by
  simp [save_context]

/-- N pair saves append exactly the expected 2N turns to the session. -/
theorem save_pairs_at_sid (sid : String) :
    ∀ (pairs : List (String × String)) (mem : SimpleMemory),
      save_pairs mem sid pairs sid = mem sid ++ pair_turns pairs := by
  intro pairs
  induction pairs with
  | nil => intro mem; simp [save_pairs, pair_turns]
  | cons p rest ih =>
    intro mem
    simp only [save_pairs, pair_turns]
    rw [ih, save_context_at_sid]
    simp

/-- pair_turns produces lists of even length. -/
theorem pair_turns_length (pairs : List (String × String)) :
    (pair_turns pairs).length = 2 * pairs.length := by
  induction pairs with
  | nil => rfl
  | cons p rest ih => simp [pair_turns, ih]; ring

/-- pair_turns alternates user/assistant starting with a user turn. -/
theorem pair_turns_alternates (pairs : List (String × String)) :
    alternates_from true (pair_turns pairs) = true := by
  induction pairs with
  | nil => rfl
  | cons p rest ih => simpa [pair_turns, alternates_from] using ih

/-- C3: for every session and every N, after N save_context calls each
providing a (user message, assistant reply) pair for that session, loading
the session memory returns exactly the 2N turns in call order, alternating
user/assistant and starting with a user turn. -/
theorem save_context_pairs_history (sid : String)
    (pairs : List (String × String)) :
    load_memory_variables (save_pairs empty_memory sid pairs) ⟨some sid, none⟩
      = pair_turns pairs ∧
    (load_memory_variables (save_pairs empty_memory sid pairs)
        ⟨some sid, none⟩).length = 2 * pairs.length ∧
    alternates_from true
      (load_memory_variables (save_pairs empty_memory sid pairs)
        ⟨some sid, none⟩) = true := by
  have h : load_memory_variables (save_pairs empty_memory sid pairs)
      ⟨some sid, none⟩ = pair_turns pairs := by
    unfold load_memory_variables
    simp only [Option.getD]
    rw [save_pairs_at_sid]
    rfl
  exact ⟨h, by rw [h, pair_turns_length], by rw [h]; exact pair_turns_alternates pairs⟩

/-- C4: execute_search honors exactly one filter dimension, in the fixed
priority day-of-week over food-item over time-period over exact date; each
case of the conjunction shows the result is fully determined by the
highest-priority present dimension (every lower-priority field is absent
from the right-hand side), and with no dimension present the search falls
back to the latest order of the user. -/
theorem execute_search_priority (db : List Order) (now : PDate) (qp : QueryParams) :
    (∀ d, qp.day_of_week = some d →
      execute_search db now qp = Except.ok
        (dedupLimit (get_orders_by_day_of_week db d (qp.user_id.getD "user_darshan"))
          (qp.limit.getD 1))) ∧
    (∀ f, qp.day_of_week = none → qp.food_item = some f →
      execute_search db now qp = Except.ok
        (dedupLimit (get_orders_by_item_name db f (qp.user_id.getD "user_darshan"))
          (qp.limit.getD 1))) ∧
    (∀ tp, qp.day_of_week = none → qp.food_item = none → qp.time_period = some tp →
      execute_search db now qp =
        (time_period_results db now tp (qp.user_id.getD "user_darshan")).map
          (fun results => dedupLimit results (qp.limit.getD 1))) ∧
    (∀ dt, qp.day_of_week = none → qp.food_item = none → qp.time_period = none →
      qp.date = some dt →
      execute_search db now qp = Except.ok
        (dedupLimit (get_orders_by_date db dt (qp.user_id.getD "user_darshan"))
          (qp.limit.getD 1))) ∧
    (qp.day_of_week = none → qp.food_item = none → qp.time_period = none →
      qp.date = none →
      execute_search db now qp = Except.ok
        (dedupLimit (latest_results db (qp.user_id.getD "user_darshan"))
          (qp.limit.getD 1))) := by
  refine ⟨?_, ?_, ?_, ?_, ?_⟩
  · intro d hd
    simp [execute_search, select_results, hd]
  · intro f hd hf
    simp [execute_search, select_results, hd, hf]
  · intro tp hd hf htp
    cases htpr : time_period_results db now tp (qp.user_id.getD "user_darshan") with
    | error e => simp [execute_search, select_results, hd, hf, htp, htpr, Except.map]
    | ok results => simp [execute_search, select_results, hd, hf, htp, htpr, Except.map]
  · intro dt hd hf htp hdt
    simp [execute_search, select_results, hd, hf, htp, hdt]
  · intro hd hf htp hdt
    simp [execute_search, select_results, hd, hf, htp, hdt]

/-- Witness for C4: a query record with every dimension present is
resolved by the day-of-week dimension alone. -/
theorem execute_search_priority_witness :
    execute_search [friday_order, tuesday_order] ⟨2024, 6, 10⟩
      { user_id := some "user_darshan", date := some "2024-06-04"
        day_of_week := some "Friday", food_item := some "pizza"
        time_period := some "latest", limit := some 5 }
      = Except.ok
        (dedupLimit
          (get_orders_by_day_of_week [friday_order, tuesday_order] "Friday"
            "user_darshan") 5) :=
  (execute_search_priority [friday_order, tuesday_order] ⟨2024, 6, 10⟩
    { user_id := some "user_darshan", date := some "2024-06-04"
      day_of_week := some "Friday", food_item := some "pizza"
      time_period := some "latest", limit := some 5 }).1 "Friday" rfl

/-- The dedup-and-truncate loop keeps at most (limit - count) orders while
the kept count is still below the limit. -/
theorem dedupLimitGo_length_of_lt (limit : Int) :
    ∀ (l : List Order) (seen : List String) (count : Nat),
      (count : Int) < limit →
      (dedupLimitGo limit seen count l).length ≤ (limit - count).toNat := by
  intro l
  induction l with
  | nil => intro seen count _; simp [dedupLimitGo]
  | cons o rest ih =>
    intro seen count hlt
    simp only [dedupLimitGo]
    split
    · exact ih seen count hlt
    · split
      · simp only [List.length_singleton]
        omega
      · rename_i hseen hlim
        have h1 := ih (o.id :: seen) (count + 1) (by push_neg at hlim; exact hlim)
        simp only [List.length_cons]
        omega

/-- Once the next kept order would reach the limit, the loop keeps at most
one more order. -/
theorem dedupLimitGo_length_of_ge (limit : Int) :
    ∀ (l : List Order) (seen : List String) (count : Nat),
      limit ≤ (count : Int) + 1 →
      (dedupLimitGo limit seen count l).length ≤ 1 := by
  intro l
  induction l with
  | nil => intro seen count _; simp [dedupLimitGo]
  | cons o rest ih =>
    intro seen count hle
    simp only [dedupLimitGo]
    by_cases hseen : o.id ∈ seen
    · rw [if_pos hseen]
      exact ih seen count hle
    · rw [if_neg hseen, if_pos (show (count : Int) + 1 ≥ limit by omega)]
      simp

/-- The dedup-and-truncate loop never emits two orders with the same id,
and never emits an id it has already seen. -/
theorem dedupLimitGo_nodup (limit : Int) :
    ∀ (l : List Order) (seen : List String) (count : Nat),
      ((dedupLimitGo limit seen count l).map (fun o => o.id)).Nodup ∧
      ∀ o_ ∈ dedupLimitGo limit seen count l, o_.id ∉ seen := by
  intro l
  induction l with
  | nil => intro seen count; simp [dedupLimitGo]
  | cons o rest ih =>
    intro seen count
    simp only [dedupLimitGo]
    split
    · exact ih seen count
    · rename_i hseen
      split
      · refine ⟨by simp, ?_⟩
        intro o_ ho_
        rw [List.mem_singleton] at ho_
        subst ho_
        exact hseen
      · obtain ⟨hnd, hdisj⟩ := ih (o.id :: seen) (count + 1)
        constructor
        · simp only [List.map_cons, List.nodup_cons]
          refine ⟨?_, hnd⟩
          intro hmem
          obtain ⟨o2, ho2, hid⟩ := List.mem_map.mp hmem
          exact hdisj o2 ho2 (by rw [hid]; exact List.mem_cons_self _ _)
        · intro o_ ho_
          rcases List.mem_cons.mp ho_ with h | h
          · subst h; exact hseen
          · exact fun hc => hdisj o_ h (List.mem_cons_of_mem _ hc)

/-- C5 counterexample: with a requested limit of 0 the result still
contains one order, so its length exceeds the requested limit. -/
theorem execute_search_limit_zero_counterexample :
    execute_search [friday_order] ⟨2024, 6, 10⟩
      { user_id := none, date := none, day_of_week := some "Friday"
        food_item := none, time_period := none, limit := some 0 }
      = Except.ok [friday_order] ∧
    ¬(([friday_order].length : Int) ≤ 0) := by
  exact ⟨rfl, by decide⟩

/-- C5 amended: every successful execute_search result lists each order id
at most once; its length is bounded by the requested limit whenever that
limit is at least 1 (the default of an absent limit is 1), and in every
case (a non-positive limit included) by the maximum of 1 and the limit. -/
theorem execute_search_dedup_limit_amended (db : List Order) (now : PDate)
    (qp : QueryParams) (l : List Order)
    (h : execute_search db now qp = Except.ok l) :
    (l.map (fun o => o.id)).Nodup ∧
    (1 ≤ qp.limit.getD 1 → (l.length : Int) ≤ qp.limit.getD 1) ∧
    l.length ≤ 1 ⊔ (qp.limit.getD 1).toNat := by
  simp only [execute_search] at h
  cases hs : select_results db now qp (qp.user_id.getD "user_darshan") with
  | error e => rw [hs] at h; exact absurd h (by simp)
  | ok results =>
    rw [hs] at h
    simp only [Except.ok.injEq] at h
    subst h
    refine ⟨(dedupLimitGo_nodup _ results [] 0).1, ?_, ?_⟩
    · intro h1
      have := dedupLimitGo_length_of_lt (qp.limit.getD 1) results [] 0 (by omega)
      simp only [dedupLimit]
      omega
    · by_cases hcase : qp.limit.getD 1 ≤ 1
      · have := dedupLimitGo_length_of_ge (qp.limit.getD 1) results [] 0 (by omega)
        simp only [dedupLimit]
        omega
      · have := dedupLimitGo_length_of_lt (qp.limit.getD 1) results [] 0 (by omega)
        simp only [dedupLimit]
        omega

/-- Witness for the amended C5 at a concrete search with an absent limit. -/
theorem execute_search_dedup_limit_amended_witness :
    ([friday_order].map (fun o => o.id)).Nodup ∧
    (1 ≤ (1 : Int) → (([friday_order].length : Int) ≤ (1 : Int))) ∧
    [friday_order].length ≤ 1 ⊔ (1 : Int).toNat :=
  execute_search_dedup_limit_amended [friday_order, tuesday_order] ⟨2024, 6, 10⟩
    { user_id := none, date := none, day_of_week := some "Friday"
      food_item := none, time_period := none, limit := none } [friday_order] rfl

/-- A needle found at the start of a list is found in the list. -/
theorem beginsWith_hasSub (needle l : List Char)
    (h : beginsWith needle l = true) : hasSub needle l = true := by
  cases l with
  | nil => simpa [hasSub] using h
  | cons c rest => simp [hasSub, h]

/-- Dropping a prefix of the needle preserves the match it witnesses. -/
theorem beginsWith_append_right :
    ∀ (xs ys l : List Char), beginsWith (xs ++ ys) l = true →
      hasSub ys l = true := by
  intro xs
  induction xs with
  | nil => intro ys l h; exact beginsWith_hasSub ys l h
  | cons x xs ih =>
    intro ys l h
    cases l with
    | nil => simp [beginsWith] at h
    | cons c rest =>
      simp only [List.cons_append, beginsWith, Bool.and_eq_true] at h
      have := ih ys rest h.2
      simp [hasSub, this]

/-- An occurrence of a concatenation contains an occurrence of its right
part. -/
theorem hasSub_append_right :
    ∀ (xs ys l : List Char), hasSub (xs ++ ys) l = true → hasSub ys l = true := by
  intro xs ys l
  induction l with
  | nil =>
    intro h
    simp only [hasSub] at h ⊢
    cases xs with
    | nil => exact h
    | cons a t => simp [beginsWith] at h
  | cons c rest ih =>
    intro h
    simp only [hasSub, Bool.or_eq_true] at h ⊢
    rcases h with h | h
    · have := beginsWith_append_right xs ys (c :: rest) h
      simpa [hasSub] using this
    · exact Or.inr (ih h)

/-- A query containing "last friday" contains "friday". -/
theorem strContains_last_friday (q : String)
    (h : strContains q "last friday" = true) : strContains q "friday" = true := by
  have hsplit : "last friday".toList = "last ".toList ++ "friday".toList := by decide
  unfold strContains at h ⊢
  rw [hsplit] at h
  exact hasSub_append_right _ _ _ h

/-- The lexicographic order is irreflexive. -/
theorem charListLt_irrefl : ∀ l : List Char, charListLt l l = false := by
  intro l
  induction l with
  | nil => rfl
  | cons c rest ih => simp [charListLt, lt_irrefl, ih]

/-- The lexicographic order is transitive. -/
theorem charListLt_trans : ∀ a b c : List Char, charListLt a b = true →
    charListLt b c = true → charListLt a c = true := by
  intro a
  induction a with
  | nil =>
    intro b c hab hbc
    cases b with
    | nil => simp [charListLt] at hab
    | cons bb bs =>
      cases c with
      | nil => simp [charListLt] at hbc
      | cons cc cs => rfl
  | cons aa as ih =>
    intro b c hab hbc
    cases b with
    | nil => simp [charListLt] at hab
    | cons bb bs =>
      cases c with
      | nil => simp [charListLt] at hbc
      | cons cc cs =>
        simp only [charListLt] at hab hbc ⊢
        by_cases h2 : bb < cc
        · by_cases h1 : aa < bb
          · rw [if_pos (lt_trans h1 h2)]
          · by_cases h1e : aa = bb
            · subst h1e; rw [if_pos h2]
            · rw [if_neg h1, if_neg h1e] at hab
              exact absurd hab (by simp)
        · by_cases h2e : bb = cc
          · subst h2e
            by_cases h1 : aa < bb
            · rw [if_pos h1]
            · by_cases h1e : aa = bb
              · subst h1e
                rw [if_neg h1, if_pos rfl] at hab hbc ⊢
                exact ih bs cs hab hbc
              · rw [if_neg h1, if_neg h1e] at hab
                exact absurd hab (by simp)
          · rw [if_neg h2, if_neg h2e] at hbc
            exact absurd hbc (by simp)

/-- The lexicographic order is total: two lists that are not ordered one
way are equal or ordered the other way. -/
theorem charListLt_total : ∀ a b : List Char, charListLt a b = false →
    charListLt b a = true ∨ a = b := by
  intro a
  induction a with
  | nil =>
    intro b h
    cases b with
    | nil => exact Or.inr rfl
    | cons bb bs => simp [charListLt] at h
  | cons aa as ih =>
    intro b h
    cases b with
    | nil => exact Or.inl rfl
    | cons bb bs =>
      simp only [charListLt] at h ⊢
      by_cases h1 : aa < bb
      · rw [if_pos h1] at h
        exact absurd h (by simp)
      · by_cases h1e : aa = bb
        · subst h1e
          rw [if_neg h1, if_pos rfl] at h
          rcases ih bs h with h3 | h3
          · exact Or.inl (by simp [lt_irrefl, h3])
          · exact Or.inr (by rw [h3])
        · have hba : bb < aa :=
            lt_of_le_of_ne (le_of_not_lt h1) (fun he => h1e he.symm)
          exact Or.inl (by simp [hba])

/-- strLt is irreflexive. -/
theorem strLt_irrefl (a : String) : strLt a a = false :=
  charListLt_irrefl _

/-- strLt is transitive. -/
theorem strLt_trans {a b c : String} (h1 : strLt a b = true)
    (h2 : strLt b c = true) : strLt a c = true :=
  charListLt_trans _ _ _ h1 h2

/-- strLt is total. -/
theorem strLt_total {a b : String} (h : strLt a b = false) :
    strLt b a = true ∨ a = b := by
  rcases charListLt_total _ _ h with h2 | h2
  · exact Or.inl h2
  · refine Or.inr ?_
    cases a
    cases b
    simp only [String.toList] at h2
    exact congrArg String.mk h2

/-- The leftmost maximum computed by max-by-date is an element of the
list it is taken over. -/
theorem latestByDate_mem : ∀ (rest : List Order) (o : Order),
    latestByDate o rest ∈ o :: rest := by
  intro rest
  induction rest with
  | nil => intro o; simp [latestByDate]
  | cons r rs ih =>
    intro o
    have key : latestByDate o (r :: rs)
        = latestByDate (if strLt o.date r.date then r else o) rs := rfl
    rw [key]
    rcases List.mem_cons.mp (ih (if strLt o.date r.date then r else o)) with h | h
    · rw [h]
      by_cases hc : strLt o.date r.date = true
      · rw [if_pos hc]; exact List.mem_cons_of_mem _ (List.mem_cons_self _ _)
      · rw [if_neg hc]; exact List.mem_cons_self _ _
    · exact List.mem_cons_of_mem _ (List.mem_cons_of_mem _ h)

/-- No element of the list has a date strictly later than the max-by-date
result: the comparison is exactly the one the source code folds with. -/
theorem latestByDate_not_lt : ∀ (rest : List Order) (o x : Order),
    x ∈ o :: rest → strLt (latestByDate o rest).date x.date = false := by
  intro rest
  induction rest with
  | nil =>
    intro o x hx
    rw [List.mem_singleton] at hx
    subst hx
    exact strLt_irrefl _
  | cons r rs ih =>
    intro o x hx
    have key : latestByDate o (r :: rs)
        = latestByDate (if strLt o.date r.date then r else o) rs := rfl
    rw [key]
    have hLm : strLt
        (latestByDate (if strLt o.date r.date then r else o) rs).date
        (if strLt o.date r.date then r else o).date = false :=
      ih _ _ (List.mem_cons_self _ _)
    rcases List.mem_cons.mp hx with h | h
    · subst h
      by_cases hc : strLt x.date r.date = true
      · rw [if_pos hc] at hLm ⊢
        cases hL : strLt (latestByDate r rs).date x.date with
        | false => rfl
        | true =>
          have := strLt_trans hL hc
          rw [this] at hLm
          exact absurd hLm (by simp)
      · rw [if_neg hc] at hLm ⊢
        exact hLm
    · rcases List.mem_cons.mp h with h2 | h2
      · subst h2
        by_cases hc : strLt o.date x.date = true
        · rw [if_pos hc] at hLm ⊢
          exact hLm
        · rw [if_neg hc] at hLm ⊢
          have hcf : strLt o.date x.date = false := by
            cases hv : strLt o.date x.date
            · rfl
            · exact absurd hv hc
          rcases strLt_total hcf with h3 | h3
          · cases hL : strLt (latestByDate o rs).date x.date with
            | false => rfl
            | true =>
              have := strLt_trans hL h3
              rw [this] at hLm
              exact absurd hLm (by simp)
          · rw [← h3]
            exact hLm
      · exact ih _ x (List.mem_cons_of_mem _ h2)

/-- Members of the day-of-week lookup match the day and the user. -/
theorem mem_get_orders_by_day_of_week (db : List Order) (day uid : String)
    (x : Order) (hx : x ∈ get_orders_by_day_of_week db day uid) :
    x.day_of_week = day ∧ x.user_id = uid := by
  unfold get_orders_by_day_of_week at hx
  rw [List.mem_filter] at hx
  obtain ⟨-, h⟩ := hx
  simp only [Bool.and_eq_true, beq_iff_eq] at h
  exact h

/-- C6 counterexample: the query "tuesday" mentions a named weekday but is
not classified to the day-of-week lookup; it falls through to the general
branch, which returns the latest order overall — a Wednesday order — even
though a Tuesday order exists. -/
theorem search_orders_tuesday_counterexample :
    (search_orders [tuesday_order, wednesday_order] ⟨2024, 6, 10⟩ "tuesday"
        "user_darshan").toOption.map SearchResult.orders
      = some [wednesday_order] ∧
    wednesday_order.day_of_week = "Wednesday" ∧
    tuesday_order.day_of_week = "Tuesday" ∧
    tuesday_order.user_id = "user_darshan" ∧
    strLt tuesday_order.date wednesday_order.date = true := by
  exact ⟨rfl, rfl, rfl, rfl, by decide⟩

/-- C6 amended: the only weekday mentions the deterministic classifier
recognizes are Friday and Monday; such a mention is classified, with
highest priority, to the day-of-week lookup, which returns the single
most-recent order whose day_of_week matches as the singular result
(found=true) and found=false with an empty order list when no order
matches that weekday. -/
theorem search_orders_weekday_amended (db : List Order) (now : PDate)
    (q user_id : String) :
    (strContains (strToLower q) "friday" = true →
      search_orders db now q user_id
        = Except.ok (search_by_day db "Friday" user_id)) ∧
    (strContains (strToLower q) "friday" = false →
      strContains (strToLower q) "monday" = true →
      search_orders db now q user_id
        = Except.ok (search_by_day db "Monday" user_id)) ∧
    (∀ day uid, get_orders_by_day_of_week db day uid = [] →
      (search_by_day db day uid).found = false ∧
      (search_by_day db day uid).orders = []) ∧
    (∀ day uid o rest, get_orders_by_day_of_week db day uid = o :: rest →
      (search_by_day db day uid).found = true ∧
      (search_by_day db day uid).orders = [latestByDate o rest] ∧
      (latestByDate o rest).day_of_week = day ∧
      ∀ x ∈ o :: rest, strLt (latestByDate o rest).date x.date = false) := by
  refine ⟨?_, ?_, ?_, ?_⟩
  · intro h
    simp [search_orders, h]
  · intro hf hm
    have hlf : strContains (strToLower q) "last friday" = false := by
      cases hc : strContains (strToLower q) "last friday"
      · rfl
      · have := strContains_last_friday (strToLower q) hc
        rw [hf] at this
        exact absurd this (by decide)
    simp [search_orders, hf, hlf, hm]
  · intro day uid h
    constructor
    · simp [search_by_day, h]
    · simp [search_by_day, h]
  · intro day uid o rest h
    have hmem := latestByDate_mem rest o
    rw [← h] at hmem
    have hd := (mem_get_orders_by_day_of_week db day uid _ hmem).1
    refine ⟨?_, ?_, hd, ?_⟩
    · simp [search_by_day, h]
    · simp [search_by_day, h]
    · exact fun x hx => latestByDate_not_lt rest o x hx

/-- Witness for the amended C6: a "last friday" query is dispatched to the
Friday day-of-week lookup. -/
theorem search_orders_weekday_amended_witness :
    search_orders [friday_order, tuesday_order] ⟨2024, 6, 10⟩ "last friday"
      "user_darshan"
      = Except.ok (search_by_day [friday_order, tuesday_order] "Friday"
          "user_darshan") :=
  (search_orders_weekday_amended [friday_order, tuesday_order] ⟨2024, 6, 10⟩
    "last friday" "user_darshan").1 (by decide)

/-- Chronological comparison of parsed dates is reflexive. -/
theorem pdleb_refl (d : PDate) : pdleb d d = true := by
  simp [pdleb]

/-- Any order of the user whose parsed date lies in the inclusive range is
kept by the range filter whenever the filter succeeds. -/
theorem rangeFilter_mem (start_dt end_dt : PDate) (uid : String) :
    ∀ (orders l : List Order) (o : Order) (od : PDate),
      rangeFilter start_dt end_dt uid orders = Except.ok l →
      o ∈ orders → o.user_id = uid → parseDate o.date = Except.ok od →
      pdleb start_dt od = true → pdleb od end_dt = true →
      o ∈ l := by
  intro orders
  induction orders with
  | nil =>
    intro l o od h ho
    simp at ho
  | cons a rest ih =>
    intro l o od h ho hu hp h1 h2
    simp only [rangeFilter] at h
    rcases List.mem_cons.mp ho with he | he
    · subst he
      rw [if_pos hu, hp] at h
      cases hr : rangeFilter start_dt end_dt uid rest with
      | error e =>
        rw [hr] at h
        exact absurd h (by simp)
      | ok tail =>
        rw [hr] at h
        simp only [Except.ok.injEq] at h
        rw [h1, h2] at h
        simp only [Bool.and_self, if_true] at h
        subst h
        exact List.mem_cons_self _ _
    · by_cases hau : a.user_id = uid
      · rw [if_pos hau] at h
        cases hap : parseDate a.date with
        | error e =>
          rw [hap] at h
          exact absurd h (by simp)
        | ok aod =>
          rw [hap] at h
          cases hr : rangeFilter start_dt end_dt uid rest with
          | error e =>
            rw [hr] at h
            exact absurd h (by simp)
          | ok tail =>
            rw [hr] at h
            simp only [Except.ok.injEq] at h
            have hmem := ih tail o od hr he hu hp h1 h2
            subst h
            split
            · exact List.mem_cons_of_mem _ hmem
            · exact hmem
      · rw [if_neg hau] at h
        exact ih l o od h he hu hp h1 h2

/-- C7 counterexample: with an inverted pair of well-formed bounds, an
order dated exactly on start_date is not in the result, which is empty. -/
theorem date_range_inverted_counterexample :
    get_orders_by_date_range [jan2_order] "2024-01-02" "2024-01-01"
      "user_darshan" = Except.ok [] ∧
    jan2_order.date = "2024-01-02" ∧
    jan2_order.user_id = "user_darshan" ∧
    parseDate "2024-01-02" = Except.ok ⟨2024, 1, 2⟩ ∧
    parseDate "2024-01-01" = Except.ok ⟨2024, 1, 1⟩ := by
  exact ⟨rfl, rfl, rfl, rfl, rfl⟩

/-- C7 amended: a malformed start or end date makes the date-range search
propagate the parse failure to the caller, and for well-formed bounds with
start_date not after end_date the search is inclusive on both ends: a
surviving search contains every order of the user dated exactly start_date
or exactly end_date. -/
theorem date_range_inclusive_amended (orders : List Order)
    (start_date end_date user_id : String) :
    (∀ e, parseDate start_date = Except.error e →
      get_orders_by_date_range orders start_date end_date user_id
        = Except.error e) ∧
    (∀ start_dt e, parseDate start_date = Except.ok start_dt →
      parseDate end_date = Except.error e →
      get_orders_by_date_range orders start_date end_date user_id
        = Except.error e) ∧
    (∀ start_dt end_dt o l,
      parseDate start_date = Except.ok start_dt →
      parseDate end_date = Except.ok end_dt →
      pdleb start_dt end_dt = true →
      get_orders_by_date_range orders start_date end_date user_id
        = Except.ok l →
      o ∈ orders → o.user_id = user_id →
      (o.date = start_date ∨ o.date = end_date) →
      o ∈ l) := by
  refine ⟨?_, ?_, ?_⟩
  · intro e he
    simp [get_orders_by_date_range, he]
  · intro start_dt e hs he
    simp [get_orders_by_date_range, hs, he]
  · intro start_dt end_dt o l hs he hle hok ho hu hd
    simp only [get_orders_by_date_range, hs, he] at hok
    rcases hd with hd | hd
    · exact rangeFilter_mem start_dt end_dt user_id orders l o start_dt hok ho hu
        (by rw [hd]; exact hs) (pdleb_refl start_dt) hle
    · exact rangeFilter_mem start_dt end_dt user_id orders l o end_dt hok ho hu
        (by rw [hd]; exact he) hle (pdleb_refl end_dt)

/-- Witness for the amended C7: an order dated exactly on the start bound
of a well-ordered range is in the result. -/
theorem date_range_inclusive_amended_witness :
    get_orders_by_date_range [jan2_order] "2024-01-02" "2024-01-05"
      "user_darshan" = Except.ok [jan2_order] ∧
    jan2_order ∈ [jan2_order] :=
  ⟨rfl, (date_range_inclusive_amended [jan2_order] "2024-01-02" "2024-01-05"
      "user_darshan").2.2 ⟨2024, 1, 2⟩ ⟨2024, 1, 5⟩ jan2_order [jan2_order]
      rfl rfl rfl rfl (List.mem_singleton.mpr rfl) rfl (Or.inl rfl)⟩

/-- C8: the LLM-assisted strategy surfaces a hard failure — with no
deterministic fallback — both when the query-generation LLM is not
initialized and when the LLM response does not parse as JSON. -/
theorem intelligent_search_hard_failure (db : List Order) (now : PDate)
    (json_loads : String → Except String QueryParams)
    (user_query user_id : String) :
    (intelligent_search_orders db now none json_loads user_query user_id
      = Except.error "Query LLM not initialized. Cannot generate search query.") ∧
    (∀ (invoke : String → Except String String) (content e : String),
      invoke (search_prompt user_query user_id) = Except.ok content →
      json_loads content.trim = Except.error e →
      intelligent_search_orders db now (some invoke) json_loads user_query user_id
        = Except.error ("Failed to generate search query: " ++ e)) := by
  constructor
  · rfl
  · intro invoke content e h1 h2
    simp only [intelligent_search_orders, generate_search_query, h1, h2]

/-- Witness for C8: a concrete LLM that answers non-JSON text makes the
search fail with the wrapped decode error. -/
theorem intelligent_search_hard_failure_witness :
    intelligent_search_orders [] ⟨2024, 6, 10⟩
      (some (fun _ => Except.ok "not json"))
      (fun _ => Except.error "Expecting value: line 1 column 1 (char 0)")
      "what did I order" "user_darshan"
      = Except.error ("Failed to generate search query: "
          ++ "Expecting value: line 1 column 1 (char 0)") :=
  (intelligent_search_hard_failure [] ⟨2024, 6, 10⟩
    (fun _ => Except.error "Expecting value: line 1 column 1 (char 0)")
    "what did I order" "user_darshan").2
    (fun _ => Except.ok "not json") "not json"
    "Expecting value: line 1 column 1 (char 0)" rfl rfl

end EchoEats
